import Mathlib

/-!
Verification of the toolset registry of
`alibabacloud-rds-openapi-mcp-server`
(`src/alibabacloud_rds_openapi_mcp_server/toolsets/toolsets.py`).

The Python module manages tool records grouped by name and registers the
enabled ones with a host (FastMCP).  We embed it shallowly:

* Python `dict`s become association lists with Python semantics
  (`dget` finds the first binding, `dset` overwrites in place keeping the
  key's position, and appends a new key at the end — insertion order).
* `_ToolInfo` objects live on a heap (`store`), addressed by an allocation
  id (`Nat`), so that object identity and aliasing between `_tools` and the
  `groups` lists are modelled faithfully: `add_tool` allocates a fresh
  record (`nextId`), while `set_group` mutates the existing record in
  place.
* Callables are abstracted to `Nat` identities; registration args/kwargs
  are carried opaquely as `List Nat` / `List (String × Nat)`.
* The host's `FastMCP.tool(mcp, *args, **kwargs)(func)` call is a function
  returning `Except Nat Unit`; a raised exception is `Except.error`.
-/

/-- Python dict lookup `d.get(k)`: the first binding of `k`. -/
def dget {α : Type} {β : Type} [DecidableEq α] : List (α × β) → α → Option β
  | [], _ => none
  | (k', v) :: d, k => if k' = k then some v else dget d k

/-- Python dict store `d[k] = v`: overwrite the first binding of `k`
keeping its position; append `(k, v)` at the end if `k` is absent. -/
def dset {α : Type} {β : Type} [DecidableEq α] : List (α × β) → α → β → List (α × β)
  | [], k, v => [(k, v)]
  | (k', v') :: d, k, v => if k' = k then (k, v) :: d else (k', v') :: dset d k v

/-- The keys of a dict, in insertion order (`d.keys()`). -/
def keys {α : Type} {β : Type} (d : List (α × β)) : List α := d.map Prod.fst

/-- `_ToolInfo`: the contents of a tool record (`func`, `args`,
`kwargs`, `group`).  Records are stored on a heap, so record identity is
the heap address, not these contents. -/
structure ToolInfo where
  func : Nat
  args : List Nat
  kwargs : List (String × Nat)
  group : String
deriving DecidableEq

/-- The state of a `ToolsetManager`, plus the allocation counter `nextId`
and heap `store` modelling Python object identity of `_ToolInfo` records.
`tools` is `self._tools` (callable → record address), `groups` is
`self.groups` (group name → list of record addresses), `enabled` is
`self.enabled` (a set, modelled as a duplicate-free list). -/
structure Manager where
  nextId : Nat
  store : List (Nat × ToolInfo)
  tools : List (Nat × Nat)
  groups : List (String × List Nat)
  enabled : List String
deriving DecidableEq

/-- `ToolsetManager.__init__`: everything empty. -/
def emptyManager : Manager := ⟨0, [], [], [], []⟩

/-- The callable stored at heap address `i`, if any. -/
def storeFunc (store : List (Nat × ToolInfo)) (i : Nat) : Option Nat :=
  (dget store i).map ToolInfo.func

/-- `[i for i in lst if i.func != func]`: drop from a group list every
record whose callable is `f`. -/
def removeFunc (store : List (Nat × ToolInfo)) (f : Nat) (lst : List Nat) : List Nat :=
  lst.filter (fun i => decide (storeFunc store i ≠ some f))

/-- `if gname in self.groups: self.groups[gname] = [i for i in self.groups[gname] if i.func != f]`. -/
def removeFromGroup (m : Manager) (gname : String) (f : Nat) : Manager :=
  match dget m.groups gname with
  | some lst => { m with groups := dset m.groups gname (removeFunc m.store f lst) }
  | none => m

/-- `self.groups.setdefault(gname, []).append(rid)`. -/
def appendToGroup (m : Manager) (gname : String) (rid : Nat) : Manager :=
  { m with groups := dset m.groups gname (((dget m.groups gname).getD []) ++ [rid]) }

/-- `ToolsetManager.add_tool(func, group, args, kwargs)`: if a record for
`f` exists, filter it out of its current group's list; then allocate a
fresh `_ToolInfo`, bind `f` to it, and append it to `g`'s list. -/
def addTool (m : Manager) (f : Nat) (g : String) (a : List Nat) (kw : List (String × Nat)) :
    Manager :=
  let m1 : Manager :=
    match dget m.tools f with
    | some oldRid =>
      match dget m.store oldRid with
      | some oldInfo => removeFromGroup m oldInfo.group f
      | none => m
    | none => m
  let rid := m1.nextId
  let m2 : Manager := { m1 with
    nextId := rid + 1
    store := dset m1.store rid ⟨f, a, kw, g⟩
    tools := dset m1.tools f rid }
  appendToGroup m2 g rid

/-- `ToolsetManager.set_group(func, group)`: bootstrap via `add_tool` when
`f` has no record; no-op when the record already has group `g`; otherwise
remove from the old group's list, mutate the record's `group` field in
place, and append the same record to `g`'s list. -/
def setGroup (m : Manager) (f : Nat) (g : String) : Manager :=
  match dget m.tools f with
  | none => addTool m f g [] []
  | some rid =>
    match dget m.store rid with
    | some info =>
      if info.group = g then m
      else
        let m1 := removeFromGroup m info.group f
        let m2 : Manager := { m1 with store := dset m1.store rid { info with group := g } }
        appendToGroup m2 g rid
    | none => m

/-- `ToolsetManager.enable(*groups)`: add each name to the enabled set. -/
def enable (m : Manager) (gs : List String) : Manager :=
  { m with enabled := gs.foldl (fun s g => if g ∈ s then s else s ++ [g]) m.enabled }

/-- `ToolsetManager.get_registered_groups()`. -/
def getRegisteredGroups (m : Manager) : List String := keys m.groups

/-- `ToolsetManager.get_enabled_groups()`. -/
def getEnabledGroups (m : Manager) : List String := m.enabled

/-- `[info.func for info in self.groups.get(g, [])]`. -/
def groupFuncs (m : Manager) (g : String) : List Nat :=
  ((dget m.groups g).getD []).filterMap (storeFunc m.store)

/-- `ToolsetManager.get_enabled_tools()`: build `result[name] = ...` for
each enabled name. -/
def getEnabledTools (m : Manager) : List (String × List Nat) :=
  m.enabled.foldl (fun r g => dset r g (groupFuncs m g)) []

/-- A registration event passed to the host:
`FastMCP.tool(mcp, *info.args, **info.kwargs)(info.func)`. -/
abbrev Reg := List Nat × List (String × Nat) × Nat

/-- The registration payload of a record: its stored args, kwargs and
callable, passed through unmodified. -/
def regOf (info : ToolInfo) : Reg := (info.args, info.kwargs, info.func)

/-- `self._tools.values()`, dereferenced through the heap, in the
insertion order of the identity-keyed map. -/
def toolsValues (m : Manager) : List ToolInfo :=
  m.tools.filterMap (fun p => dget m.store p.2)

/-- The `for info in self._tools.values()` loop of `register_enabled`:
returns the successful registration events in order, and the first
exception raised by the host (which stops the loop), if any. -/
def runLoop (en : List String) (host : Reg → Except Nat Unit) :
    List ToolInfo → List Reg × Option Nat
  | [] => ([], none)
  | info :: rest =>
    if info.group ∈ en then
      match host (regOf info) with
      | Except.ok _ =>
        let r := runLoop en host rest
        (regOf info :: r.1, r.2)
      | Except.error e => ([], some e)
    else runLoop en host rest

/-- `ToolsetManager.register_enabled(mcp)`. -/
def registerEnabled (m : Manager) (host : Reg → Except Nat Unit) : List Reg × Option Nat :=
  runLoop m.enabled host (toolsValues m)

/-- Python `toolsets.split(",")` on the character list: split at every
comma, keeping empty pieces. -/
def pySplit (sep : Char) : List Char → List (List Char)
  | [] => [[]]
  | c :: rest =>
    match pySplit sep rest with
    | [] => [[]]
    | t :: ts => if c = sep then [] :: t :: ts else (c :: t) :: ts

/-- Python `str.strip()`: drop whitespace from both ends. -/
def pyStrip (cs : List Char) : List Char :=
  ((cs.dropWhile Char.isWhitespace).reverse.dropWhile Char.isWhitespace).reverse

/-- The group selector of `initialize_toolsets`: `None`, a string, or a
list of names. -/
abbrev Selector := Option (String ⊕ List String)

/-- The `enabled` computation of `initialize_toolsets`:
`None` → `["default"]`; a string → split on commas, strip each token,
drop empty tokens, falling back to `["default"]` when nothing remains;
a list → the list itself, or `["default"]` when it is empty. -/
def computeEnabled : Selector → List String
  | none => ["default"]
  | some (Sum.inl s) =>
    let toks := ((pySplit ',' s.toList).map (fun t => String.mk (pyStrip t))).filter
      (fun t => decide (t ≠ ""))
    if toks = [] then ["default"] else toks
  | some (Sum.inr l) => if l = [] then ["default"] else l

/-- The registry-facing effect of `initialize_toolsets`: enable the
computed groups on the manager. -/
def initToolsetsEnable (m : Manager) (sel : Selector) : Manager :=
  enable m (computeEnabled sel)

/-- Client calls that mutate the registry before activation. -/
inductive Op where
  | add (f : Nat) (g : String) (a : List Nat) (kw : List (String × Nat)) : Op
  | move (f : Nat) (g : String) : Op
  | turnOn (gs : List String) : Op
deriving DecidableEq

/-- Interpret one client call. -/
def applyOp (m : Manager) : Op → Manager
  | Op.add f g a kw => addTool m f g a kw
  | Op.move f g => setGroup m f g
  | Op.turnOn gs => enable m gs

/-- The registry state after a sequence of calls on a fresh manager. -/
def run (ops : List Op) : Manager := ops.foldl applyOp emptyManager

/-- The registration parameters currently stored for callable `f`. -/
def storedParams (m : Manager) (f : Nat) : Option (List Nat × List (String × Nat)) :=
  match dget m.tools f with
  | some rid => (dget m.store rid).map (fun i => (i.args, i.kwargs))
  | none => none

/-- The data-structure invariant of reachable manager states:
heap addresses are below the allocation counter; `tools` dereferences to a
record with the right callable; every address in a group's list belongs to
a live, correctly grouped, `tools`-reachable record; and the record of
every registered callable occurs exactly once in its own group's list. -/
structure RegInv (m : Manager) : Prop where
  fresh : ∀ i ∈ keys m.store, i < m.nextId
  tstore : ∀ f rid, dget m.tools f = some rid →
    ∃ info, dget m.store rid = some info ∧ info.func = f
  glist : ∀ g lst, dget m.groups g = some lst → ∀ i ∈ lst,
    ∃ info, dget m.store i = some info ∧ info.group = g ∧ dget m.tools info.func = some i
  gcount : ∀ f rid info, dget m.tools f = some rid → dget m.store rid = some info →
    ∃ lst, dget m.groups info.group = some lst ∧ lst.count rid = 1

/-! ### Association-list (Python dict) lemmas -/

theorem keys_nil {α β : Type} : keys ([] : List (α × β)) = [] := rfl

theorem keys_cons {α β : Type} (p : α × β) (d : List (α × β)) :
    keys (p :: d) = p.1 :: keys d := rfl

theorem dget_dset_self {α β : Type} [DecidableEq α] (d : List (α × β)) (k : α) (v : β) :
    dget (dset d k v) k = some v := by
  induction d with
  | nil => simp [dget, dset]
  | cons p d ih =>
    by_cases h : p.1 = k <;> simp [dget, dset, h, ih]

theorem dget_dset_ne {α β : Type} [DecidableEq α] (d : List (α × β)) {k k' : α} (v : β)
    (h : k' ≠ k) : dget (dset d k v) k' = dget d k' := by
  induction d with
  | nil => simp [dget, dset, Ne.symm h]
  | cons p d ih =>
    by_cases hp : p.1 = k
    · simp [dget, dset, hp, Ne.symm h]
    · by_cases hp' : p.1 = k' <;> simp [dget, dset, hp, hp', ih, h]

theorem dget_eq_none {α β : Type} [DecidableEq α] (d : List (α × β)) (k : α) :
    dget d k = none ↔ k ∉ keys d := by
  induction d with
  | nil => simp [dget, keys_nil]
  | cons p d ih =>
    by_cases h : p.1 = k
    · simp [dget, keys_cons, h]
    · simp [dget, keys_cons, h, ih, Ne.symm h]

theorem mem_keys_of_dget {α β : Type} [DecidableEq α] {d : List (α × β)} {k : α} {v : β}
    (h : dget d k = some v) : k ∈ keys d := by
  by_contra hk
  rw [← dget_eq_none d k] at hk
  rw [h] at hk
  cases hk

theorem keys_dset_of_mem {α β : Type} [DecidableEq α] {d : List (α × β)} {k : α} (v : β)
    (h : k ∈ keys d) : keys (dset d k v) = keys d := by
  induction d with
  | nil => simp [keys_nil] at h
  | cons p d ih =>
    by_cases hp : p.1 = k
    · simp [dset, hp, keys_cons]
    · have hk : k ∈ keys d := by
        rcases (by simpa [keys_cons] using h : k = p.1 ∨ k ∈ keys d) with h1 | h1
        · exact absurd h1.symm hp
        · exact h1
      simp [dset, hp, keys_cons, ih hk]

theorem keys_dset_of_not_mem {α β : Type} [DecidableEq α] {d : List (α × β)} {k : α} (v : β)
    (h : k ∉ keys d) : keys (dset d k v) = keys d ++ [k] := by
  induction d with
  | nil => simp [dset, keys_nil, keys_cons]
  | cons p d ih =>
    have h1 : ¬ p.1 = k := by
      intro hh
      exact h (by simp [keys_cons, hh])
    have h2 : k ∉ keys d := fun hh => h (by simp [keys_cons, hh])
    simp [dset, h1, keys_cons, ih h2]

/-! ### Component lemmas for the registry operations -/

theorem removeFromGroup_nextId (m : Manager) (gn : String) (f : Nat) :
    (removeFromGroup m gn f).nextId = m.nextId := by
  unfold removeFromGroup
  cases dget m.groups gn <;> rfl

theorem removeFromGroup_store (m : Manager) (gn : String) (f : Nat) :
    (removeFromGroup m gn f).store = m.store := by
  unfold removeFromGroup
  cases dget m.groups gn <;> rfl

theorem removeFromGroup_tools (m : Manager) (gn : String) (f : Nat) :
    (removeFromGroup m gn f).tools = m.tools := by
  unfold removeFromGroup
  cases dget m.groups gn <;> rfl

theorem removeFromGroup_enabled (m : Manager) (gn : String) (f : Nat) :
    (removeFromGroup m gn f).enabled = m.enabled := by
  unfold removeFromGroup
  cases dget m.groups gn <;> rfl

theorem dget_removeFromGroup (m : Manager) (gn : String) (f : Nat) (g' : String) :
    dget (removeFromGroup m gn f).groups g' =
      if g' = gn then (dget m.groups gn).map (removeFunc m.store f) else dget m.groups g' := by
  unfold removeFromGroup
  cases h : dget m.groups gn with
  | none =>
    by_cases hg : g' = gn <;> simp [hg, h]
  | some lst =>
    by_cases hg : g' = gn
    · simp [hg, h, dget_dset_self]
    · simp [hg, dget_dset_ne _ _ hg]

theorem appendToGroup_nextId (m : Manager) (gn : String) (rid : Nat) :
    (appendToGroup m gn rid).nextId = m.nextId := rfl

theorem appendToGroup_store (m : Manager) (gn : String) (rid : Nat) :
    (appendToGroup m gn rid).store = m.store := rfl

theorem appendToGroup_tools (m : Manager) (gn : String) (rid : Nat) :
    (appendToGroup m gn rid).tools = m.tools := rfl

theorem appendToGroup_enabled (m : Manager) (gn : String) (rid : Nat) :
    (appendToGroup m gn rid).enabled = m.enabled := rfl

theorem dget_appendToGroup (m : Manager) (gn : String) (rid : Nat) (g' : String) :
    dget (appendToGroup m gn rid).groups g' =
      if g' = gn then some (((dget m.groups gn).getD []) ++ [rid]) else dget m.groups g' := by
  unfold appendToGroup
  by_cases hg : g' = gn
  · simp [hg, dget_dset_self]
  · simp [hg, dget_dset_ne _ _ hg]

theorem addTool_nextId (m : Manager) (f : Nat) (g : String) (a : List Nat)
    (kw : List (String × Nat)) : (addTool m f g a kw).nextId = m.nextId + 1 := by
  cases h1 : dget m.tools f with
  | none => simp [addTool, h1, appendToGroup_nextId]
  | some oldRid =>
    cases h2 : dget m.store oldRid with
    | none => simp [addTool, h1, h2, appendToGroup_nextId]
    | some oldInfo =>
      simp [addTool, h1, h2, appendToGroup_nextId, removeFromGroup_nextId]

theorem addTool_store (m : Manager) (f : Nat) (g : String) (a : List Nat)
    (kw : List (String × Nat)) :
    (addTool m f g a kw).store = dset m.store m.nextId ⟨f, a, kw, g⟩ := by
  cases h1 : dget m.tools f with
  | none => simp [addTool, h1, appendToGroup_store]
  | some oldRid =>
    cases h2 : dget m.store oldRid with
    | none => simp [addTool, h1, h2, appendToGroup_store]
    | some oldInfo =>
      simp [addTool, h1, h2, appendToGroup_store, removeFromGroup_store, removeFromGroup_nextId]

theorem addTool_tools (m : Manager) (f : Nat) (g : String) (a : List Nat)
    (kw : List (String × Nat)) :
    (addTool m f g a kw).tools = dset m.tools f m.nextId := by
  cases h1 : dget m.tools f with
  | none => simp [addTool, h1, appendToGroup_tools]
  | some oldRid =>
    cases h2 : dget m.store oldRid with
    | none => simp [addTool, h1, h2, appendToGroup_tools]
    | some oldInfo =>
      simp [addTool, h1, h2, appendToGroup_tools, removeFromGroup_tools, removeFromGroup_nextId]

theorem addTool_enabled (m : Manager) (f : Nat) (g : String) (a : List Nat)
    (kw : List (String × Nat)) : (addTool m f g a kw).enabled = m.enabled := by
  cases h1 : dget m.tools f with
  | none => simp [addTool, h1, appendToGroup_enabled]
  | some oldRid =>
    cases h2 : dget m.store oldRid with
    | none => simp [addTool, h1, h2, appendToGroup_enabled]
    | some oldInfo =>
      simp [addTool, h1, h2, appendToGroup_enabled, removeFromGroup_enabled]

theorem addTool_groups_notFound (m : Manager) (f : Nat) (g : String) (a : List Nat)
    (kw : List (String × Nat)) (h : dget m.tools f = none) (g' : String) :
    dget (addTool m f g a kw).groups g' =
      if g' = g then some (((dget m.groups g).getD []) ++ [m.nextId]) else dget m.groups g' := by
  unfold addTool
  simp [h, dget_appendToGroup]

theorem addTool_groups_found (m : Manager) (f : Nat) (g : String) (a : List Nat)
    (kw : List (String × Nat)) {oldRid : Nat} {oldInfo : ToolInfo}
    (h1 : dget m.tools f = some oldRid) (h2 : dget m.store oldRid = some oldInfo) (g' : String) :
    dget (addTool m f g a kw).groups g' =
      if g' = g then
        some ((if g = oldInfo.group then
            (dget m.groups oldInfo.group).map (removeFunc m.store f)
          else dget m.groups g).getD [] ++ [m.nextId])
      else if g' = oldInfo.group then (dget m.groups oldInfo.group).map (removeFunc m.store f)
      else dget m.groups g' := by
  unfold addTool
  simp [h1, h2, dget_appendToGroup, dget_removeFromGroup, removeFromGroup_nextId]

theorem setGroup_notFound (m : Manager) (f : Nat) (g : String) (h : dget m.tools f = none) :
    setGroup m f g = addTool m f g [] [] := by
  simp [setGroup, h]

theorem setGroup_noop (m : Manager) (f : Nat) (g : String) {rid : Nat} {info : ToolInfo}
    (h1 : dget m.tools f = some rid) (h2 : dget m.store rid = some info)
    (h3 : info.group = g) : setGroup m f g = m := by
  simp [setGroup, h1, h2, h3]

theorem setGroup_move_nextId (m : Manager) (f : Nat) (g : String) {rid : Nat} {info : ToolInfo}
    (h1 : dget m.tools f = some rid) (h2 : dget m.store rid = some info)
    (h3 : info.group ≠ g) : (setGroup m f g).nextId = m.nextId := by
  simp [setGroup, h1, h2, h3, appendToGroup_nextId, removeFromGroup_nextId]

theorem setGroup_move_tools (m : Manager) (f : Nat) (g : String) {rid : Nat} {info : ToolInfo}
    (h1 : dget m.tools f = some rid) (h2 : dget m.store rid = some info)
    (h3 : info.group ≠ g) : (setGroup m f g).tools = m.tools := by
  simp [setGroup, h1, h2, h3, appendToGroup_tools, removeFromGroup_tools]

theorem setGroup_move_enabled (m : Manager) (f : Nat) (g : String) {rid : Nat} {info : ToolInfo}
    (h1 : dget m.tools f = some rid) (h2 : dget m.store rid = some info)
    (h3 : info.group ≠ g) : (setGroup m f g).enabled = m.enabled := by
  simp [setGroup, h1, h2, h3, appendToGroup_enabled, removeFromGroup_enabled]

theorem setGroup_move_store (m : Manager) (f : Nat) (g : String) {rid : Nat} {info : ToolInfo}
    (h1 : dget m.tools f = some rid) (h2 : dget m.store rid = some info)
    (h3 : info.group ≠ g) :
    (setGroup m f g).store = dset m.store rid { info with group := g } := by
  simp [setGroup, h1, h2, h3, appendToGroup_store, removeFromGroup_store]

theorem setGroup_move_groups (m : Manager) (f : Nat) (g : String) {rid : Nat} {info : ToolInfo}
    (h1 : dget m.tools f = some rid) (h2 : dget m.store rid = some info)
    (h3 : info.group ≠ g) (g' : String) :
    dget (setGroup m f g).groups g' =
      if g' = g then
        some ((if g = info.group then
            (dget m.groups info.group).map (removeFunc m.store f)
          else dget m.groups g).getD [] ++ [rid])
      else if g' = info.group then (dget m.groups info.group).map (removeFunc m.store f)
      else dget m.groups g' := by
  simp [setGroup, h1, h2, h3, dget_appendToGroup, dget_removeFromGroup]

theorem enable_nextId (m : Manager) (gs : List String) : (enable m gs).nextId = m.nextId := rfl

theorem enable_store (m : Manager) (gs : List String) : (enable m gs).store = m.store := rfl

theorem enable_tools (m : Manager) (gs : List String) : (enable m gs).tools = m.tools := rfl

theorem enable_groups (m : Manager) (gs : List String) : (enable m gs).groups = m.groups := rfl

/-! ### Lemmas about group-list pruning and the allocation counter -/

theorem mem_removeFunc {store : List (Nat × ToolInfo)} {f i : Nat} {lst : List Nat} :
    i ∈ removeFunc store f lst ↔ i ∈ lst ∧ storeFunc store i ≠ some f := by
  simp [removeFunc, List.mem_filter]

theorem count_removeFunc_of_ne {store : List (Nat × ToolInfo)} {f i : Nat}
    (h : storeFunc store i ≠ some f) (lst : List Nat) :
    (removeFunc store f lst).count i = lst.count i :=
  List.count_filter (by simpa using h)

theorem count_removeFunc_self {store : List (Nat × ToolInfo)} {f i : Nat}
    (h : storeFunc store i = some f) (lst : List Nat) :
    (removeFunc store f lst).count i = 0 := by
  rw [List.count_eq_zero]
  intro hi
  exact (mem_removeFunc.1 hi).2 h

theorem nextId_not_mem_store {m : Manager} (hm : RegInv m) : m.nextId ∉ keys m.store :=
  fun h => absurd (hm.fresh _ h) (lt_irrefl _)

theorem dget_store_ne_nextId {m : Manager} (hm : RegInv m) {i : Nat} {info : ToolInfo}
    (h : dget m.store i = some info) : i ≠ m.nextId := fun he =>
  nextId_not_mem_store hm (he ▸ mem_keys_of_dget h)

theorem group_elem_ne_nextId {m : Manager} (hm : RegInv m) {gx : String} {lstx : List Nat}
    (hgx : dget m.groups gx = some lstx) {i : Nat} (hi : i ∈ lstx) : i ≠ m.nextId := by
  obtain ⟨info_i, hSi, -, -⟩ := hm.glist gx lstx hgx i hi
  exact dget_store_ne_nextId hm hSi

/-! ### Invariant preservation -/

theorem count_append_singleton_ne {l : List Nat} {x y : Nat} (h : x ≠ y) :
    (l ++ [y]).count x = l.count x := by
  simp [List.count_append, List.count_cons, List.count_nil, Ne.symm h]

theorem count_append_singleton_self {l : List Nat} {y : Nat} (h : l.count y = 0) :
    (l ++ [y]).count y = 1 := by
  simp [List.count_append, List.count_cons, List.count_nil, h]

theorem regInv_empty : RegInv emptyManager := by
  refine ⟨?_, ?_, ?_, ?_⟩
  · intro i hi
    simp [emptyManager, keys_nil] at hi
  · intro f rid h
    simp [emptyManager, dget] at h
  · intro g lst h
    simp [emptyManager, dget] at h
  · intro f rid info h
    simp [emptyManager, dget] at h

theorem regInv_addTool {m : Manager} (hm : RegInv m) (f : Nat) (g : String) (a : List Nat)
    (kw : List (String × Nat)) : RegInv (addTool m f g a kw) := by
  have hnid : m.nextId ∉ keys m.store := nextId_not_mem_store hm
  have hstoreA := addTool_store m f g a kw
  have htoolsA := addTool_tools m f g a kw
  have hpres : ∀ i info', dget m.store i = some info' →
      dget (addTool m f g a kw).store i = some info' := by
    intro i info' h
    rw [hstoreA, dget_dset_ne _ _ (dget_store_ne_nextId hm h)]
    exact h
  have hselfS : dget (addTool m f g a kw).store m.nextId = some ⟨f, a, kw, g⟩ := by
    rw [hstoreA]
    exact dget_dset_self _ _ _
  have hselfT : dget (addTool m f g a kw).tools f = some m.nextId := by
    rw [htoolsA]
    exact dget_dset_self _ _ _
  have hotherT : ∀ f', f' ≠ f → dget (addTool m f g a kw).tools f' = dget m.tools f' := by
    intro f' hf'
    rw [htoolsA, dget_dset_ne _ _ hf']
  refine ⟨?_, ?_, ?_, ?_⟩
  · -- fresh
    intro i hi
    rw [addTool_nextId]
    rw [hstoreA, keys_dset_of_not_mem _ hnid] at hi
    rcases List.mem_append.1 hi with hi | hi
    · exact Nat.lt_succ_of_lt (hm.fresh i hi)
    · simp at hi
      subst hi
      exact Nat.lt_succ_self _
  · -- tstore
    intro f' rid' hT
    by_cases hf' : f' = f
    · rw [hf'] at hT ⊢
      rw [hselfT] at hT
      obtain rfl : m.nextId = rid' := Option.some.inj hT
      exact ⟨⟨f, a, kw, g⟩, hselfS, rfl⟩
    · rw [hotherT f' hf'] at hT
      obtain ⟨info₀, hS₀, hfn⟩ := hm.tstore f' rid' hT
      exact ⟨info₀, hpres _ _ hS₀, hfn⟩
  · -- glist
    intro g' lst' hlst' i hi
    cases h1 : dget m.tools f with
    | none =>
      rw [addTool_groups_notFound m f g a kw h1 g'] at hlst'
      by_cases hg' : g' = g
      · rw [if_pos hg'] at hlst'
        obtain rfl := (Option.some.inj hlst').symm
        rcases List.mem_append.1 hi with hi | hi
        · cases hg : dget m.groups g with
          | none => rw [hg] at hi; cases hi
          | some cur0 =>
            rw [hg] at hi
            obtain ⟨info_i, hSi, hgrpi, hTi⟩ := hm.glist g cur0 hg i hi
            have hfne : info_i.func ≠ f := by
              intro he
              rw [he, h1] at hTi
              cases hTi
            exact ⟨info_i, hpres _ _ hSi, hgrpi.trans hg'.symm, (hotherT _ hfne).trans hTi⟩
        · simp at hi
          subst hi
          exact ⟨⟨f, a, kw, g⟩, hselfS, hg'.symm, hselfT⟩
      · rw [if_neg hg'] at hlst'
        obtain ⟨info_i, hSi, hgrpi, hTi⟩ := hm.glist g' lst' hlst' i hi
        have hfne : info_i.func ≠ f := by
          intro he
          rw [he, h1] at hTi
          cases hTi
        exact ⟨info_i, hpres _ _ hSi, hgrpi, (hotherT _ hfne).trans hTi⟩
    | some oldRid =>
      obtain ⟨oldInfo, hOldS, hOldF⟩ := hm.tstore f oldRid h1
      rw [addTool_groups_found m f g a kw h1 hOldS g'] at hlst'
      have hkeep : ∀ gx lstx, dget m.groups gx = some lstx → ∀ j ∈ lstx,
          storeFunc m.store j ≠ some f →
          ∃ info_j, dget (addTool m f g a kw).store j = some info_j ∧ info_j.group = gx ∧
            dget (addTool m f g a kw).tools info_j.func = some j := by
        intro gx lstx hgx j hj hne
        obtain ⟨info_j, hSj, hgrpj, hTj⟩ := hm.glist gx lstx hgx j hj
        have hfne : info_j.func ≠ f := by
          intro he
          rw [storeFunc, hSj] at hne
          simp [he] at hne
        exact ⟨info_j, hpres _ _ hSj, hgrpj, (hotherT _ hfne).trans hTj⟩
      have hne_of_mem : ∀ gx lstx, dget m.groups gx = some lstx → gx ≠ oldInfo.group →
          ∀ j ∈ lstx, storeFunc m.store j ≠ some f := by
        intro gx lstx hgx hgxne j hj hcontra
        obtain ⟨info_j, hSj, hgrpj, hTj⟩ := hm.glist gx lstx hgx j hj
        rw [storeFunc, hSj] at hcontra
        have hfj : info_j.func = f := Option.some.inj (by simpa using hcontra)
        rw [hfj, h1] at hTj
        obtain rfl : oldRid = j := Option.some.inj hTj
        rw [hOldS] at hSj
        obtain rfl := Option.some.inj hSj
        exact hgxne hgrpj.symm
      by_cases hg' : g' = g
      · rw [if_pos hg'] at hlst'
        obtain rfl := (Option.some.inj hlst').symm
        rcases List.mem_append.1 hi with hi | hi
        · by_cases hgo : g = oldInfo.group
          · rw [if_pos hgo] at hi
            cases hold : dget m.groups oldInfo.group with
            | none => rw [hold] at hi; cases hi
            | some oldLst =>
              rw [hold] at hi
              simp only [Option.map_some', Option.getD_some] at hi
              obtain ⟨hj, hne⟩ := mem_removeFunc.1 hi
              obtain ⟨info_i, hSi, hgrpi, hTi⟩ := hkeep _ _ hold i hj hne
              exact ⟨info_i, hSi, hgrpi.trans (hgo.symm.trans hg'.symm), hTi⟩
          · rw [if_neg hgo] at hi
            cases hg : dget m.groups g with
            | none => rw [hg] at hi; cases hi
            | some cur0 =>
              rw [hg] at hi
              simp only [Option.getD_some] at hi
              obtain ⟨info_i, hSi, hgrpi, hTi⟩ :=
                hkeep _ _ hg i hi (hne_of_mem _ _ hg hgo i hi)
              exact ⟨info_i, hSi, hgrpi.trans hg'.symm, hTi⟩
        · simp at hi
          subst hi
          exact ⟨⟨f, a, kw, g⟩, hselfS, hg'.symm, hselfT⟩
      · rw [if_neg hg'] at hlst'
        by_cases hgo : g' = oldInfo.group
        · rw [if_pos hgo] at hlst'
          cases hold : dget m.groups oldInfo.group with
          | none => rw [hold] at hlst'; cases hlst'
          | some oldLst =>
            rw [hold] at hlst'
            simp only [Option.map_some'] at hlst'
            obtain rfl := (Option.some.inj hlst').symm
            obtain ⟨hj, hne⟩ := mem_removeFunc.1 hi
            obtain ⟨info_i, hSi, hgrpi, hTi⟩ := hkeep _ _ hold i hj hne
            exact ⟨info_i, hSi, hgrpi.trans hgo.symm, hTi⟩
        · rw [if_neg hgo] at hlst'
          exact hkeep _ _ hlst' i hi (hne_of_mem _ _ hlst' hgo i hi)
  · -- gcount
    intro f' rid' info' hT hS
    cases h1 : dget m.tools f with
    | none =>
      by_cases hf' : f' = f
      · rw [hf'] at hT
        rw [hselfT] at hT
        obtain rfl : m.nextId = rid' := Option.some.inj hT
        rw [hselfS] at hS
        obtain rfl := (Option.some.inj hS).symm
        show ∃ lst, dget (addTool m f g a kw).groups g = some lst ∧
          List.count m.nextId lst = 1
        refine ⟨((dget m.groups g).getD []) ++ [m.nextId], ?_, ?_⟩
        · rw [addTool_groups_notFound m f g a kw h1 g]
          simp
        · refine count_append_singleton_self ?_
          rw [List.count_eq_zero]
          intro hmem
          cases hg : dget m.groups g with
          | none => rw [hg] at hmem; cases hmem
          | some cur0 =>
            rw [hg] at hmem
            exact group_elem_ne_nextId hm hg hmem rfl
      · rw [hotherT f' hf'] at hT
        obtain ⟨info₀, hS₀, hfn⟩ := hm.tstore f' rid' hT
        rw [hpres _ _ hS₀] at hS
        obtain rfl := (Option.some.inj hS).symm
        obtain ⟨lst₀, hglst₀, hcnt₀⟩ := hm.gcount f' rid' info' hT hS₀
        have hnidne : rid' ≠ m.nextId := dget_store_ne_nextId hm hS₀
        rw [addTool_groups_notFound m f g a kw h1 info'.group]
        by_cases hgo : info'.group = g
        · rw [if_pos hgo]
          refine ⟨_, rfl, ?_⟩
          rw [← hgo, hglst₀]
          simp only [Option.getD_some]
          rw [count_append_singleton_ne hnidne]
          exact hcnt₀
        · rw [if_neg hgo]
          exact ⟨lst₀, hglst₀, hcnt₀⟩
    | some oldRid =>
      obtain ⟨oldInfo, hOldS, hOldF⟩ := hm.tstore f oldRid h1
      by_cases hf' : f' = f
      · rw [hf'] at hT
        rw [hselfT] at hT
        obtain rfl : m.nextId = rid' := Option.some.inj hT
        rw [hselfS] at hS
        obtain rfl := (Option.some.inj hS).symm
        show ∃ lst, dget (addTool m f g a kw).groups g = some lst ∧
          List.count m.nextId lst = 1
        refine ⟨(if g = oldInfo.group then
            (dget m.groups oldInfo.group).map (removeFunc m.store f)
          else dget m.groups g).getD [] ++ [m.nextId], ?_, ?_⟩
        · rw [addTool_groups_found m f g a kw h1 hOldS g]
          simp
        · refine count_append_singleton_self ?_
          rw [List.count_eq_zero]
          intro hmem
          by_cases hgo : g = oldInfo.group
          · rw [if_pos hgo] at hmem
            cases hold : dget m.groups oldInfo.group with
            | none => rw [hold] at hmem; cases hmem
            | some oldLst =>
              rw [hold] at hmem
              simp only [Option.map_some', Option.getD_some] at hmem
              exact group_elem_ne_nextId hm hold (mem_removeFunc.1 hmem).1 rfl
          · rw [if_neg hgo] at hmem
            cases hg : dget m.groups g with
            | none => rw [hg] at hmem; cases hmem
            | some cur0 =>
              rw [hg] at hmem
              simp only [Option.getD_some] at hmem
              exact group_elem_ne_nextId hm hg hmem rfl
      · rw [hotherT f' hf'] at hT
        obtain ⟨info₀, hS₀, hfn⟩ := hm.tstore f' rid' hT
        rw [hpres _ _ hS₀] at hS
        obtain rfl := (Option.some.inj hS).symm
        obtain ⟨lst₀, hglst₀, hcnt₀⟩ := hm.gcount f' rid' info' hT hS₀
        have hsfne : storeFunc m.store rid' ≠ some f := by
          rw [storeFunc, hS₀]
          simp only [Option.map_some', ne_eq, Option.some.injEq]
          intro he
          exact hf' (hfn ▸ he)
        have hnidne : rid' ≠ m.nextId := dget_store_ne_nextId hm hS₀
        rw [addTool_groups_found m f g a kw h1 hOldS info'.group]
        by_cases hgo : info'.group = g
        · rw [if_pos hgo]
          refine ⟨_, rfl, ?_⟩
          by_cases hgoo : g = oldInfo.group
          · rw [if_pos hgoo, ← hgoo, ← hgo, hglst₀]
            simp only [Option.map_some', Option.getD_some]
            rw [count_append_singleton_ne hnidne, count_removeFunc_of_ne hsfne]
            exact hcnt₀
          · rw [if_neg hgoo, ← hgo, hglst₀]
            simp only [Option.getD_some]
            rw [count_append_singleton_ne hnidne]
            exact hcnt₀
        · rw [if_neg hgo]
          by_cases hgoo : info'.group = oldInfo.group
          · rw [if_pos hgoo, ← hgoo, hglst₀]
            simp only [Option.map_some']
            exact ⟨_, rfl, by rw [count_removeFunc_of_ne hsfne]; exact hcnt₀⟩
          · rw [if_neg hgoo]
            exact ⟨lst₀, hglst₀, hcnt₀⟩

theorem regInv_setGroup {m : Manager} (hm : RegInv m) (f : Nat) (g : String) :
    RegInv (setGroup m f g) := by
  cases hT : dget m.tools f with
  | none =>
    rw [setGroup_notFound m f g hT]
    exact regInv_addTool hm f g [] []
  | some rid =>
    cases hS : dget m.store rid with
    | none =>
      have heq : setGroup m f g = m := by simp [setGroup, hT, hS]
      rw [heq]
      exact hm
    | some info =>
      by_cases h3 : info.group = g
      · rw [setGroup_noop m f g hT hS h3]
        exact hm
      · have hfn : info.func = f := by
          obtain ⟨info₀, hS₀, hfn₀⟩ := hm.tstore f rid hT
          rw [hS] at hS₀
          obtain rfl := Option.some.inj hS₀
          exact hfn₀
        have hstoreS := setGroup_move_store m f g hT hS h3
        have htoolsS := setGroup_move_tools m f g hT hS h3
        have hnextS := setGroup_move_nextId m f g hT hS h3
        have hgroupsS := setGroup_move_groups m f g hT hS h3
        have hridS : dget (setGroup m f g).store rid = some { info with group := g } := by
          rw [hstoreS]
          exact dget_dset_self _ _ _
        have hpres : ∀ i info', i ≠ rid → dget m.store i = some info' →
            dget (setGroup m f g).store i = some info' := by
          intro i info' hne h
          rw [hstoreS, dget_dset_ne _ _ hne]
          exact h
        have hTS : ∀ f', dget (setGroup m f g).tools f' = dget m.tools f' := by
          intro f'
          rw [htoolsS]
        have hnotg : ¬ (g = info.group) := fun he => h3 he.symm
        have hstoref : storeFunc m.store rid = some f := by
          rw [storeFunc, hS]
          simp [hfn]
        have hne_rid : ∀ i info_i, dget m.store i = some info_i → info_i.func ≠ f →
            i ≠ rid := by
          intro i info_i hSi hfne he
          subst he
          rw [hS] at hSi
          obtain rfl := Option.some.inj hSi
          exact hfne hfn
        have hne_rid' : ∀ i, storeFunc m.store i ≠ some f → i ≠ rid := fun i hi he =>
          hi (he ▸ hstoref)
        refine ⟨?_, ?_, ?_, ?_⟩
        · -- fresh
          intro i hi
          rw [hnextS]
          rw [hstoreS, keys_dset_of_mem _ (mem_keys_of_dget hS)] at hi
          exact hm.fresh i hi
        · -- tstore
          intro f' rid'' hT'
          rw [hTS] at hT'
          by_cases hf' : f' = f
          · rw [hf'] at hT' ⊢
            rw [hT] at hT'
            obtain rfl : rid = rid'' := Option.some.inj hT'
            exact ⟨{ info with group := g }, hridS, hfn⟩
          · obtain ⟨info₀, hS₀, hfn₀⟩ := hm.tstore f' rid'' hT'
            have hne : rid'' ≠ rid :=
              hne_rid rid'' info₀ hS₀ (fun he => hf' (hfn₀.symm.trans he))
            exact ⟨info₀, hpres _ _ hne hS₀, hfn₀⟩
        · -- glist
          intro g' lst' hlst' i hi
          rw [hgroupsS g', if_neg hnotg] at hlst'
          by_cases hg' : g' = g
          · rw [if_pos hg'] at hlst'
            obtain rfl := (Option.some.inj hlst').symm
            rcases List.mem_append.1 hi with hi | hi
            · cases hg : dget m.groups g with
              | none => rw [hg] at hi; cases hi
              | some cur0 =>
                rw [hg] at hi
                simp only [Option.getD_some] at hi
                obtain ⟨info_i, hSi, hgrpi, hTi⟩ := hm.glist g cur0 hg i hi
                have hir : i ≠ rid := by
                  intro he
                  subst he
                  rw [hS] at hSi
                  obtain rfl := Option.some.inj hSi
                  exact h3 hgrpi
                exact ⟨info_i, hpres _ _ hir hSi, hgrpi.trans hg'.symm, (hTS _).trans hTi⟩
            · simp at hi
              rw [hi]
              refine ⟨{ info with group := g }, hridS, hg'.symm, ?_⟩
              show dget (setGroup m f g).tools info.func = some rid
              rw [hTS, hfn]
              exact hT
          · rw [if_neg hg'] at hlst'
            by_cases hgo : g' = info.group
            · rw [if_pos hgo] at hlst'
              cases hold : dget m.groups info.group with
              | none => rw [hold] at hlst'; cases hlst'
              | some oldLst =>
                rw [hold] at hlst'
                simp only [Option.map_some'] at hlst'
                obtain rfl := (Option.some.inj hlst').symm
                obtain ⟨hj, hne⟩ := mem_removeFunc.1 hi
                obtain ⟨info_i, hSi, hgrpi, hTi⟩ := hm.glist _ _ hold i hj
                have hir : i ≠ rid := hne_rid' i hne
                exact ⟨info_i, hpres _ _ hir hSi, hgrpi.trans hgo.symm, (hTS _).trans hTi⟩
            · rw [if_neg hgo] at hlst'
              obtain ⟨info_i, hSi, hgrpi, hTi⟩ := hm.glist g' lst' hlst' i hi
              have hir : i ≠ rid := by
                intro he
                subst he
                rw [hS] at hSi
                obtain rfl := Option.some.inj hSi
                exact hgo hgrpi.symm
              exact ⟨info_i, hpres _ _ hir hSi, hgrpi, (hTS _).trans hTi⟩
        · -- gcount
          intro f' rid'' info'' hT' hS'
          rw [hTS] at hT'
          by_cases hf' : f' = f
          · rw [hf'] at hT'
            rw [hT] at hT'
            obtain rfl : rid = rid'' := Option.some.inj hT'
            rw [hridS] at hS'
            obtain rfl := (Option.some.inj hS').symm
            show ∃ lst, dget (setGroup m f g).groups g = some lst ∧ List.count rid lst = 1
            refine ⟨(dget m.groups g).getD [] ++ [rid], ?_, ?_⟩
            · rw [hgroupsS g, if_neg hnotg, if_pos rfl]
            · refine count_append_singleton_self ?_
              rw [List.count_eq_zero]
              intro hmem
              cases hg : dget m.groups g with
              | none => rw [hg] at hmem; cases hmem
              | some cur0 =>
                rw [hg] at hmem
                simp only [Option.getD_some] at hmem
                obtain ⟨info_i, hSi, hgrpi, -⟩ := hm.glist g cur0 hg rid hmem
                rw [hS] at hSi
                obtain rfl := Option.some.inj hSi
                exact h3 hgrpi
          · obtain ⟨info₀, hS₀, hfn₀⟩ := hm.tstore f' rid'' hT'
            have hne : rid'' ≠ rid :=
              hne_rid rid'' info₀ hS₀ (fun he => hf' (hfn₀.symm.trans he))
            rw [hpres _ _ hne hS₀] at hS'
            rw [show info'' = info₀ from (Option.some.inj hS').symm]
            obtain ⟨lst₀, hglst₀, hcnt₀⟩ := hm.gcount f' rid'' info₀ hT' hS₀
            have hsfne : storeFunc m.store rid'' ≠ some f := by
              rw [storeFunc, hS₀]
              simp only [Option.map_some', ne_eq, Option.some.injEq]
              intro he
              exact hf' (hfn₀.symm.trans he)
            rw [hgroupsS info₀.group, if_neg hnotg]
            by_cases hgo : info₀.group = g
            · rw [if_pos hgo]
              refine ⟨_, rfl, ?_⟩
              rw [← hgo, hglst₀]
              simp only [Option.getD_some]
              rw [count_append_singleton_ne hne]
              exact hcnt₀
            · rw [if_neg hgo]
              by_cases hgoo : info₀.group = info.group
              · rw [if_pos hgoo, ← hgoo, hglst₀]
                simp only [Option.map_some']
                exact ⟨_, rfl, by rw [count_removeFunc_of_ne hsfne]; exact hcnt₀⟩
              · rw [if_neg hgoo]
                exact ⟨lst₀, hglst₀, hcnt₀⟩

theorem regInv_enable {m : Manager} (hm : RegInv m) (gs : List String) :
    RegInv (enable m gs) :=
  ⟨hm.fresh, hm.tstore, hm.glist, hm.gcount⟩

theorem regInv_applyOp {m : Manager} (hm : RegInv m) (op : Op) : RegInv (applyOp m op) := by
  cases op with
  | add f g a kw => exact regInv_addTool hm f g a kw
  | move f g => exact regInv_setGroup hm f g
  | turnOn gs => exact regInv_enable hm gs

theorem regInv_foldl (ops : List Op) : ∀ m, RegInv m → RegInv (ops.foldl applyOp m) := by
  induction ops with
  | nil => intro m hm; exact hm
  | cons op ops ih =>
    intro m hm
    exact ih _ (regInv_applyOp hm op)

theorem regInv_run (ops : List Op) : RegInv (run ops) :=
  regInv_foldl ops emptyManager regInv_empty

/-! ### Helper lemmas for the claims -/

theorem count_filterMap_storeFunc {store : List (Nat × ToolInfo)} {f rid : Nat}
    (l : List Nat) (hmem : ∀ i ∈ l, storeFunc store i = some f ↔ i = rid) :
    (l.filterMap (storeFunc store)).count f = l.count rid := by
  induction l with
  | nil => simp
  | cons i l ih =>
    have hmem' : ∀ j ∈ l, storeFunc store j = some f ↔ j = rid :=
      fun j hj => hmem j (List.mem_cons_of_mem _ hj)
    have hi := hmem i (List.mem_cons_self i l)
    cases hsf : storeFunc store i with
    | none =>
      have hir : ¬ (i = rid) := fun he => by
        rw [hsf] at hi
        exact Option.noConfusion (hi.2 he)
      rw [List.filterMap_cons_none hsf, List.count_cons, ih hmem']
      simp [hir]
    | some b =>
      rw [List.filterMap_cons_some hsf, List.count_cons, List.count_cons, ih hmem']
      by_cases he : i = rid
      · have hb : b = f := by
          have h2 := hi.mpr he
          rw [hsf] at h2
          exact Option.some.inj h2
        simp [hb, he]
      · have hb : ¬ (b = f) := by
          intro hbf
          exact he (hi.mp (by rw [hsf, hbf]))
        simp [hb, he]

theorem count_filterMap_storeFunc_zero {store : List (Nat × ToolInfo)} {f : Nat}
    (l : List Nat) (hmem : ∀ i ∈ l, storeFunc store i ≠ some f) :
    (l.filterMap (storeFunc store)).count f = 0 := by
  rw [List.count_eq_zero]
  intro hmem2
  obtain ⟨i, hi, hsf⟩ := List.mem_filterMap.1 hmem2
  exact hmem i hi hsf

theorem runLoop_ok (en : List String) (host : Reg → Except Nat Unit) (l : List ToolInfo)
    (h : ∀ info ∈ l, info.group ∈ en → host (regOf info) = Except.ok ()) :
    runLoop en host l = ((l.filter (fun i => decide (i.group ∈ en))).map regOf, none) := by
  induction l with
  | nil => simp [runLoop]
  | cons info l ih =>
    have ih' := ih (fun j hj => h j (List.mem_cons_of_mem _ hj))
    by_cases hg : info.group ∈ en
    · simp [runLoop, hg, h info (List.mem_cons_self _ _) hg, ih', List.filter_cons]
    · simp [runLoop, hg, ih', List.filter_cons]

theorem runLoop_error (en : List String) (host : Reg → Except Nat Unit) (l : List ToolInfo)
    (pre post : List ToolInfo) (bad : ToolInfo) (e : Nat)
    (hsel : l.filter (fun i => decide (i.group ∈ en)) = pre ++ bad :: post)
    (hpre : ∀ i ∈ pre, host (regOf i) = Except.ok ())
    (hbad : host (regOf bad) = Except.error e) :
    runLoop en host l = (pre.map regOf, some e) := by
  induction l generalizing pre with
  | nil => simp at hsel
  | cons info l ih =>
    by_cases hg : info.group ∈ en
    · rw [List.filter_cons_of_pos (by simpa using hg)] at hsel
      cases pre with
      | nil =>
        simp at hsel
        obtain ⟨rfl, -⟩ := hsel
        simp [runLoop, hg, hbad]
      | cons p pre' =>
        simp at hsel
        obtain ⟨rfl, h2⟩ := hsel
        have hpok := hpre info (List.mem_cons_self _ _)
        have ih' := ih pre' h2 (fun i hi => hpre i (List.mem_cons_of_mem _ hi))
        simp [runLoop, hg, hpok, ih']
    · rw [List.filter_cons_of_neg (by simpa using hg)] at hsel
      simp [runLoop, hg, ih pre hsel hpre]

theorem runLoop_congr (en1 en2 : List String) (host : Reg → Except Nat Unit)
    (l : List ToolInfo) (h : ∀ info ∈ l, (info.group ∈ en1 ↔ info.group ∈ en2)) :
    runLoop en1 host l = runLoop en2 host l := by
  induction l with
  | nil => rfl
  | cons info l ih =>
    have hh := h info (List.mem_cons_self _ _)
    have ih' := ih (fun j hj => h j (List.mem_cons_of_mem _ hj))
    by_cases hg : info.group ∈ en1
    · simp only [runLoop, if_pos hg, if_pos (hh.1 hg), ih']
    · simp only [runLoop, if_neg hg, if_neg (fun hx => hg (hh.2 hx)), ih']

theorem mem_foldl_addset (g : String) : ∀ (l s : List String),
    g ∈ l.foldl (fun acc x => if x ∈ acc then acc else acc ++ [x]) s ↔ g ∈ s ∨ g ∈ l := by
  intro l
  induction l with
  | nil => intro s; simp
  | cons x l ih =>
    intro s
    simp only [List.foldl_cons]
    by_cases hx : x ∈ s
    · rw [if_pos hx, ih s]
      have hgx : g = x → g ∈ s := fun h => h ▸ hx
      simp only [List.mem_cons]
      tauto
    · rw [if_neg hx, ih (s ++ [x])]
      simp only [List.mem_append, List.mem_cons, List.mem_singleton]
      tauto

theorem mem_enable (m : Manager) (gs : List String) (g : String) :
    g ∈ (enable m gs).enabled ↔ g ∈ m.enabled ∨ g ∈ gs :=
  mem_foldl_addset g gs m.enabled

theorem dget_getEnabledTools (m : Manager) (g : String) (hg : g ∈ m.enabled) :
    dget (getEnabledTools m) g = some (groupFuncs m g) := by
  suffices h : ∀ (l : List String) (acc : List (String × List Nat)),
      (g ∈ l ∨ dget acc g = some (groupFuncs m g)) →
      dget (l.foldl (fun r x => dset r x (groupFuncs m x)) acc) g =
        some (groupFuncs m g) by
    exact h m.enabled [] (Or.inl hg)
  intro l
  induction l with
  | nil =>
    intro acc h
    rcases h with h | h
    · cases h
    · exact h
  | cons x l ih =>
    intro acc h
    simp only [List.foldl_cons]
    by_cases hgx : g = x
    · apply ih
      right
      rw [hgx, dget_dset_self]
    · apply ih
      rcases h with h | h
      · rcases List.mem_cons.1 h with h1 | h1
        · exact absurd h1 hgx
        · exact Or.inl h1
      · right
        rw [dget_dset_ne _ _ hgx]
        exact h

theorem storedParams_addTool_self (m : Manager) (f : Nat) (g : String) (a : List Nat)
    (kw : List (String × Nat)) : storedParams (addTool m f g a kw) f = some (a, kw) := by
  simp [storedParams, addTool_tools, dget_dset_self, addTool_store]

theorem storedParams_addTool_other {m : Manager} (hm : RegInv m) {f f' : Nat} (g : String)
    (a : List Nat) (kw : List (String × Nat)) (hf' : f' ≠ f) :
    storedParams (addTool m f g a kw) f' = storedParams m f' := by
  cases hT : dget m.tools f' with
  | none => simp [storedParams, addTool_tools, dget_dset_ne _ _ hf', hT]
  | some rid' =>
    obtain ⟨info₀, hS₀, -⟩ := hm.tstore f' rid' hT
    simp [storedParams, addTool_tools, dget_dset_ne _ _ hf', hT, addTool_store,
      dget_dset_ne _ _ (dget_store_ne_nextId hm hS₀)]

theorem storedParams_setGroup_other {m : Manager} (hm : RegInv m) {f f' : Nat} (g : String)
    (hf' : f' ≠ f) : storedParams (setGroup m f g) f' = storedParams m f' := by
  cases hT : dget m.tools f with
  | none =>
    rw [setGroup_notFound m f g hT]
    exact storedParams_addTool_other hm g [] [] hf'
  | some rid =>
    cases hS : dget m.store rid with
    | none =>
      have heq : setGroup m f g = m := by simp [setGroup, hT, hS]
      rw [heq]
    | some info =>
      by_cases h3 : info.group = g
      · rw [setGroup_noop m f g hT hS h3]
      · have hfn : info.func = f := by
          obtain ⟨info₀, hS₀, hfn₀⟩ := hm.tstore f rid hT
          rw [hS] at hS₀
          obtain rfl := Option.some.inj hS₀
          exact hfn₀
        cases hT' : dget m.tools f' with
        | none => simp [storedParams, setGroup_move_tools m f g hT hS h3, hT']
        | some rid' =>
          obtain ⟨info₀, hS₀, hfn₀⟩ := hm.tstore f' rid' hT'
          have hne : rid' ≠ rid := by
            intro he
            rw [he, hS] at hS₀
            obtain rfl := Option.some.inj hS₀
            exact hf' (hfn₀.symm.trans hfn)
          simp [storedParams, setGroup_move_tools m f g hT hS h3, hT',
            setGroup_move_store m f g hT hS h3, dget_dset_ne _ _ hne]

theorem storedParams_setGroup_self_some {m : Manager} {f : Nat} (g : String)
    {p : List Nat × List (String × Nat)} (h : storedParams m f = some p) :
    storedParams (setGroup m f g) f = some p := by
  cases hT : dget m.tools f with
  | none => simp [storedParams, hT] at h
  | some rid =>
    cases hS : dget m.store rid with
    | none => simp [storedParams, hT, hS] at h
    | some info =>
      by_cases h3 : info.group = g
      · rw [setGroup_noop m f g hT hS h3]
        exact h
      · simp only [storedParams, hT, hS, Option.map_some'] at h
        simp only [storedParams, setGroup_move_tools m f g hT hS h3, hT,
          setGroup_move_store m f g hT hS h3, dget_dset_self, Option.map_some']
        exact h

theorem storedParams_setGroup_self_none {m : Manager} (hm : RegInv m) {f : Nat} (g : String)
    (h : storedParams m f = none) : storedParams (setGroup m f g) f = some ([], []) := by
  cases hT : dget m.tools f with
  | none =>
    rw [setGroup_notFound m f g hT]
    exact storedParams_addTool_self m f g [] []
  | some rid =>
    obtain ⟨info, hS, -⟩ := hm.tstore f rid hT
    simp [storedParams, hT, hS] at h

/-! ### The claims -/

/-- C1: when the host accepts every registration, `register_enabled`
registers exactly the tool records whose current group is in the
enablement set — each record considered once, in order, with its stored
args, kwargs and operation passed through unmodified — and nothing
else. -/
theorem claim_C1 (m : Manager) (host : Reg → Except Nat Unit)
    (h : ∀ info ∈ toolsValues m, info.group ∈ m.enabled → host (regOf info) = Except.ok ()) :
    registerEnabled m host =
      (((toolsValues m).filter (fun i => decide (i.group ∈ m.enabled))).map regOf, none) :=
  runLoop_ok m.enabled host (toolsValues m) h

/-- C1 witness: operation 1 is added to group `a` (enabled) but moved to
group `c` (not enabled) before activation, so only operation 2 of group
`b` is registered: selection uses the current group, not the add-time
group. -/
theorem claim_C1_witness :
    registerEnabled (run [Op.add 1 "a" [5] [("k", 7)], Op.add 2 "b" [] [],
        Op.move 1 "c", Op.turnOn ["a", "b"]]) (fun _ => Except.ok ()) =
      ([([], [], 2)], none) :=
  (claim_C1 _ _ (fun _ _ _ => rfl)).trans (by rfl)

/-- C5: if the host raises exception `e` on the registration of `bad`,
every selected tool before `bad` in the activation iteration has already
been registered, no later tool is registered, and `e` propagates
unmodified. -/
theorem claim_C5 (m : Manager) (host : Reg → Except Nat Unit) (pre post : List ToolInfo)
    (bad : ToolInfo) (e : Nat)
    (hsel : (toolsValues m).filter (fun i => decide (i.group ∈ m.enabled)) =
      pre ++ bad :: post)
    (hpre : ∀ i ∈ pre, host (regOf i) = Except.ok ())
    (hbad : host (regOf bad) = Except.error e) :
    registerEnabled m host = (pre.map regOf, some e) :=
  runLoop_error m.enabled host (toolsValues m) pre post bad e hsel hpre hbad

/-- C5 witness: three enabled tools; the host raises 9 on the second.
The first tool's registration already occurred, the third never happens,
and exception 9 reaches the caller. -/
theorem claim_C5_witness :
    registerEnabled (run [Op.add 1 "g" [] [], Op.add 2 "g" [] [], Op.add 3 "g" [] [],
        Op.turnOn ["g"]])
      (fun r => if r.2.2 = 2 then Except.error 9 else Except.ok ()) =
      ([([], [], 1)], some 9) :=
  (claim_C5 _ _ [⟨1, [], [], "g"⟩] [⟨3, [], [], "g"⟩] ⟨2, [], [], "g"⟩ 9 (by rfl)
    (by
      intro i hi
      rw [List.mem_singleton.mp hi]
      rfl)
    (by rfl)).trans (by rfl)

/-- C7: `set_group` on an operation with no tool record leaves the
registry in exactly the state of `add_tool` with that group and the
default (empty) registration parameters. -/
theorem claim_C7 (m : Manager) (f : Nat) (g : String) (h : dget m.tools f = none) :
    setGroup m f g = addTool m f g [] [] :=
  setGroup_notFound m f g h

/-- C7 witness: on the fresh registry, `set_group 0 "custom"` equals
`add_tool 0 "custom"` with default parameters. -/
theorem claim_C7_witness :
    setGroup emptyManager 0 "custom" = addTool emptyManager 0 "custom" [] [] :=
  claim_C7 emptyManager 0 "custom" (by rfl)

/-- C8: `set_group` is idempotent on every registry state — a second call
with the same operation and target group changes nothing (including
within-group order), and a call whose target equals the record's current
group is a no-op. -/
theorem claim_C8 (m : Manager) (f : Nat) (g : String) :
    setGroup (setGroup m f g) f g = setGroup m f g ∧
    (∀ rid info, dget m.tools f = some rid → dget m.store rid = some info →
      info.group = g → setGroup m f g = m) := by
  constructor
  · cases hT : dget m.tools f with
    | none =>
      rw [setGroup_notFound m f g hT]
      have hTA : dget (addTool m f g [] []).tools f = some m.nextId := by
        rw [addTool_tools]
        exact dget_dset_self _ _ _
      have hSA : dget (addTool m f g [] []).store m.nextId = some ⟨f, [], [], g⟩ := by
        rw [addTool_store]
        exact dget_dset_self _ _ _
      exact setGroup_noop _ f g hTA hSA rfl
    | some rid =>
      cases hS : dget m.store rid with
      | none =>
        have heq : setGroup m f g = m := by simp [setGroup, hT, hS]
        rw [heq, heq]
      | some info =>
        by_cases h3 : info.group = g
        · rw [setGroup_noop m f g hT hS h3, setGroup_noop m f g hT hS h3]
        · have hTS : dget (setGroup m f g).tools f = some rid := by
            rw [setGroup_move_tools m f g hT hS h3]
            exact hT
          have hSS : dget (setGroup m f g).store rid = some { info with group := g } := by
            rw [setGroup_move_store m f g hT hS h3]
            exact dget_dset_self _ _ _
          exact setGroup_noop _ f g hTS hSS rfl
  · intro rid info hT hS h3
    exact setGroup_noop m f g hT hS h3

/-- C8 witness: idempotence on a concrete bootstrap call, and the no-op
case on a registry where operation 0 already belongs to group `x`. -/
theorem claim_C8_witness :
    setGroup (setGroup emptyManager 0 "x") 0 "x" = setGroup emptyManager 0 "x" ∧
    setGroup (run [Op.add 0 "x" [] []]) 0 "x" = run [Op.add 0 "x" [] []] :=
  ⟨(claim_C8 emptyManager 0 "x").1,
   (claim_C8 (run [Op.add 0 "x" [] []]) 0 "x").2 0 ⟨0, [], [], "x"⟩ (by rfl) (by rfl) rfl⟩

/-- C2: after any sequence of add/set_group/enable calls, a registered
operation's callable occurs exactly once in the listing of the group
named by its record, and in no other group's listing; an unregistered
callable occurs in no listing at all. -/
theorem claim_C2 (ops : List Op) (f : Nat) :
    (∀ rid info, dget (run ops).tools f = some rid →
      dget (run ops).store rid = some info →
      (groupFuncs (run ops) info.group).count f = 1 ∧
      ∀ g, g ≠ info.group → (groupFuncs (run ops) g).count f = 0) ∧
    (dget (run ops).tools f = none →
      ∀ g, (groupFuncs (run ops) g).count f = 0) := by
  have hm := regInv_run ops
  constructor
  · intro rid info hT hS
    have hfn : info.func = f := by
      obtain ⟨info₀, hS₀, hfn₀⟩ := hm.tstore f rid hT
      rw [hS] at hS₀
      obtain rfl := Option.some.inj hS₀
      exact hfn₀
    constructor
    · obtain ⟨lst, hglst, hcnt⟩ := hm.gcount f rid info hT hS
      rw [groupFuncs, hglst]
      simp only [Option.getD_some]
      have hmemiff : ∀ i ∈ lst, storeFunc (run ops).store i = some f ↔ i = rid := by
        intro i hi
        constructor
        · intro hsf
          obtain ⟨info_i, hSi, hgrpi, hTi⟩ := hm.glist _ _ hglst i hi
          rw [storeFunc, hSi] at hsf
          have hfi : info_i.func = f := Option.some.inj (by simpa using hsf)
          rw [hfi, hT] at hTi
          exact (Option.some.inj hTi).symm
        · intro he
          rw [he, storeFunc, hS]
          simp [hfn]
      rw [count_filterMap_storeFunc lst hmemiff, hcnt]
    · intro g hg
      rw [groupFuncs]
      cases hglst : dget (run ops).groups g with
      | none => simp
      | some lst =>
        simp only [Option.getD_some]
        apply count_filterMap_storeFunc_zero
        intro i hi hsf
        obtain ⟨info_i, hSi, hgrpi, hTi⟩ := hm.glist _ _ hglst i hi
        rw [storeFunc, hSi] at hsf
        have hfi : info_i.func = f := Option.some.inj (by simpa using hsf)
        rw [hfi, hT] at hTi
        obtain rfl : rid = i := Option.some.inj hTi
        rw [hS] at hSi
        obtain rfl := Option.some.inj hSi
        exact hg hgrpi.symm
  · intro hT g
    rw [groupFuncs]
    cases hglst : dget (run ops).groups g with
    | none => simp
    | some lst =>
      simp only [Option.getD_some]
      apply count_filterMap_storeFunc_zero
      intro i hi hsf
      obtain ⟨info_i, hSi, hgrpi, hTi⟩ := hm.glist _ _ hglst i hi
      rw [storeFunc, hSi] at hsf
      have hfi : info_i.func = f := Option.some.inj (by simpa using hsf)
      rw [hfi, hT] at hTi
      cases hTi

/-- C2 witness: operation 0 is added to group `a` then moved to `b`: it
occurs once in `b`'s listing and vanishes from `a`'s; callable 7 was never
added and occurs nowhere. -/
theorem claim_C2_witness :
    (groupFuncs (run [Op.add 0 "a" [] [], Op.move 0 "b"]) "b").count 0 = 1 ∧
    (groupFuncs (run [Op.add 0 "a" [] [], Op.move 0 "b"]) "a").count 0 = 0 ∧
    (groupFuncs (run [Op.add 0 "a" [] [], Op.move 0 "b"]) "a").count 7 = 0 := by
  have h := claim_C2 [Op.add 0 "a" [] [], Op.move 0 "b"] 0
  have h2 := h.1 0 ⟨0, [], [], "b"⟩ (by rfl) (by rfl)
  have h7 := (claim_C2 [Op.add 0 "a" [] [], Op.move 0 "b"] 7).2 (by rfl) "a"
  exact ⟨h2.1, h2.2 "a" (by decide), h7⟩

/-- C3 counterexample: re-adding operation 0 does not reuse the stored
record — the identity map binds 0 to a different record handle than
before (while still keeping a single entry for it), so the previously
stored record no longer designates the registry's current record. -/
theorem claim_C3_counterexample :
    dget (addTool (addTool emptyManager 0 "default" [] []) 0 "default" [] []).tools 0 ≠
      dget (addTool emptyManager 0 "default" [] []).tools 0 ∧
    keys (addTool (addTool emptyManager 0 "default" [] []) 0 "default" [] []).tools =
      [0] := by
  decide

/-- C3 amended: re-adding an existing operation creates no duplicate
entry (the key set of the identity map is unchanged), but it does not
update the record in place: the operation is re-bound to the freshly
allocated record (`nextId`), which is distinct from the old handle, so
external references to the old record go stale. -/
theorem claim_C3_amended (ops : List Op) (f : Nat) (g : String) (a : List Nat)
    (kw : List (String × Nat)) (rid : Nat) (h : dget (run ops).tools f = some rid) :
    dget (addTool (run ops) f g a kw).tools f = some (run ops).nextId ∧
    (run ops).nextId ≠ rid ∧
    keys (addTool (run ops) f g a kw).tools = keys (run ops).tools := by
  have hm := regInv_run ops
  refine ⟨?_, ?_, ?_⟩
  · rw [addTool_tools]
    exact dget_dset_self _ _ _
  · obtain ⟨info, hS, -⟩ := hm.tstore f rid h
    exact Ne.symm (dget_store_ne_nextId hm hS)
  · rw [addTool_tools, keys_dset_of_mem _ (mem_keys_of_dget h)]

/-- C3 amended witness: after one add of operation 0, a re-add binds 0 to
the fresh handle 1 ≠ 0, with the key set unchanged. -/
theorem claim_C3_witness :
    dget (addTool (run [Op.add 0 "default" [] []]) 0 "default" [] []).tools 0 = some 1 ∧
    (1 : Nat) ≠ 0 ∧
    keys (addTool (run [Op.add 0 "default" [] []]) 0 "default" [] []).tools =
      keys (run [Op.add 0 "default" [] []]).tools := by
  have h := claim_C3_amended [Op.add 0 "default" [] []] 0 "default" [] [] 0 (by rfl)
  exact ⟨h.1, h.2.1, h.2.2⟩

/-- C4 counterexample: a second `add_tool` for operation 0 with different
args replaces the stored registration parameters: they become those of
the second call, not of the first. -/
theorem claim_C4_counterexample :
    storedParams (addTool (addTool emptyManager 0 "g" [1] []) 0 "g" [2] []) 0 =
      some ([2], []) ∧
    storedParams (addTool emptyManager 0 "g" [1] []) 0 = some ([1], []) ∧
    (some ([2], []) : Option (List Nat × List (String × Nat))) ≠ some ([1], []) := by
  decide

/-- C4 amended: a record's registration parameters are those of the most
recent `add_tool` call for its operation (a re-add overwrites them with
the new call's values); `add_tool` leaves every other record's parameters
unchanged, and `set_group` never changes stored parameters — its
bootstrap path stores the default empty parameters. -/
theorem claim_C4_amended (ops : List Op) (f f' : Nat) (g : String) (a : List Nat)
    (kw : List (String × Nat)) :
    storedParams (addTool (run ops) f g a kw) f = some (a, kw) ∧
    (f' ≠ f → storedParams (addTool (run ops) f g a kw) f' = storedParams (run ops) f') ∧
    (f' ≠ f → storedParams (setGroup (run ops) f g) f' = storedParams (run ops) f') ∧
    (∀ p, storedParams (run ops) f = some p →
      storedParams (setGroup (run ops) f g) f = some p) ∧
    (storedParams (run ops) f = none →
      storedParams (setGroup (run ops) f g) f = some ([], [])) := by
  have hm := regInv_run ops
  exact ⟨storedParams_addTool_self (run ops) f g a kw,
    fun hf' => storedParams_addTool_other hm g a kw hf',
    fun hf' => storedParams_setGroup_other hm g hf',
    fun p hp => storedParams_setGroup_self_some g hp,
    fun hp => storedParams_setGroup_self_none hm g hp⟩

/-- C4 amended witness: re-adding operation 0 with args `[2]` overwrites
`[1]`; moving operation 0 to group `h` keeps its parameters and leaves
operation 1's parameters alone; `set_group` on unknown operation 5 stores
the defaults. -/
theorem claim_C4_witness :
    storedParams (addTool (run [Op.add 0 "g" [1] []]) 0 "g" [2] []) 0 = some ([2], []) ∧
    storedParams (setGroup (run [Op.add 0 "g" [1] [], Op.add 1 "g" [3] []]) 0 "h") 1 =
      storedParams (run [Op.add 0 "g" [1] [], Op.add 1 "g" [3] []]) 1 ∧
    storedParams (setGroup (run [Op.add 0 "g" [1] []]) 0 "h") 0 = some ([1], []) ∧
    storedParams (setGroup (run []) 5 "h") 5 = some ([], []) := by
  refine ⟨(claim_C4_amended [Op.add 0 "g" [1] []] 0 0 "g" [2] []).1, ?_, ?_, ?_⟩
  · exact (claim_C4_amended [Op.add 0 "g" [1] [], Op.add 1 "g" [3] []] 0 1 "h" [] []).2.2.1
      (by decide)
  · exact (claim_C4_amended [Op.add 0 "g" [1] []] 0 0 "h" [] []).2.2.2.1 ([1], []) (by rfl)
  · exact (claim_C4_amended [] 5 5 "h" [] []).2.2.2.2 (by rfl)

/-- C6: the activation entry point computes the groups to enable as:
no selector → `["default"]`; a list selector → the list, or `["default"]`
when empty; a string selector → comma-split, trimmed, empty tokens
dropped (`"rds, custom"` and the malformed `"rds,,custom,"` both give
exactly `rds` and `custom`, without error), falling back to `["default"]`
when nothing remains; the computed selection is never empty. -/
theorem claim_C6 :
    computeEnabled none = ["default"] ∧
    (∀ l, computeEnabled (some (Sum.inr l)) = if l = [] then ["default"] else l) ∧
    computeEnabled (some (Sum.inl "rds, custom")) = ["rds", "custom"] ∧
    computeEnabled (some (Sum.inl "rds,,custom,")) = ["rds", "custom"] ∧
    computeEnabled (some (Sum.inl " ,, ")) = ["default"] ∧
    getEnabledGroups (initToolsetsEnable emptyManager (some (Sum.inl "rds, custom"))) =
      ["rds", "custom"] ∧
    (∀ sel, computeEnabled sel ≠ []) := by
  refine ⟨rfl, fun l => rfl, by rfl, by rfl, by rfl, by rfl, ?_⟩
  intro sel
  cases sel with
  | none => simp [computeEnabled]
  | some s =>
    cases s with
    | inl str =>
      simp only [computeEnabled]
      split
      next h => simp
      next h => exact h
    | inr l =>
      simp only [computeEnabled]
      split
      next h => simp
      next h => exact h

/-- C9: enabling any group name always succeeds and adds exactly the
given names to the enablement set; `get_enabled_tools` maps an enabled
group with no tools to the empty list; and enabling a group no tool
belongs to does not change what activation registers.  (All registry
operations are total functions of the state: none can raise on an
unknown group name.) -/
theorem claim_C9 (m : Manager) (gs : List String) (g : String) :
    (∀ g', g' ∈ (enable m gs).enabled ↔ g' ∈ m.enabled ∨ g' ∈ gs) ∧
    (g ∈ m.enabled → (dget m.groups g).getD [] = [] →
      dget (getEnabledTools m) g = some []) ∧
    ((∀ info ∈ toolsValues m, info.group ≠ g) →
      ∀ host, registerEnabled (enable m [g]) host = registerEnabled m host) := by
  refine ⟨fun g' => mem_enable m gs g', ?_, ?_⟩
  · intro hg hempty
    rw [dget_getEnabledTools m g hg, groupFuncs, hempty]
    rfl
  · intro hinfo host
    show runLoop (enable m [g]).enabled host (toolsValues (enable m [g])) =
      runLoop m.enabled host (toolsValues m)
    apply runLoop_congr
    intro info hi
    rw [mem_enable]
    simp [hinfo info hi]

/-- C9 witness: group `ghost` is enabled though empty —
`get_enabled_tools` yields `[]` for it, and enabling it changes nothing
in what activation registers. -/
theorem claim_C9_witness :
    dget (getEnabledTools (run [Op.add 1 "a" [] [], Op.turnOn ["a", "ghost"]])) "ghost" =
      some [] ∧
    registerEnabled (enable (run [Op.add 1 "a" [] [], Op.turnOn ["a", "ghost"]]) ["ghost"])
        (fun _ => Except.ok ()) =
      registerEnabled (run [Op.add 1 "a" [] [], Op.turnOn ["a", "ghost"]])
        (fun _ => Except.ok ()) := by
  have h := claim_C9 (run [Op.add 1 "a" [] [], Op.turnOn ["a", "ghost"]]) ["ghost"] "ghost"
  exact ⟨h.2.1 (by decide) (by rfl), h.2.2 (by decide) _⟩

/-- C10: the activation iteration is the insertion order of the
identity-keyed tool map — re-adding an operation or changing its group
keeps its key position (the key list is unchanged; only a first add
appends) — and the registered operations are exactly that order filtered
by enablement. -/
theorem claim_C10 (m : Manager) (f : Nat) (g : String) (a : List Nat)
    (kw : List (String × Nat)) :
    (f ∈ keys m.tools → keys (addTool m f g a kw).tools = keys m.tools) ∧
    (f ∈ keys m.tools → keys (setGroup m f g).tools = keys m.tools) ∧
    (f ∉ keys m.tools → keys (addTool m f g a kw).tools = keys m.tools ++ [f]) ∧
    ((registerEnabled m (fun _ => Except.ok ())).1.map (fun r => r.2.2) =
      ((toolsValues m).filter (fun i => decide (i.group ∈ m.enabled))).map ToolInfo.func) := by
  refine ⟨?_, ?_, ?_, ?_⟩
  · intro hf
    rw [addTool_tools, keys_dset_of_mem _ hf]
  · intro hf
    cases hT : dget m.tools f with
    | none => exact absurd hf ((dget_eq_none _ _).1 hT)
    | some rid =>
      cases hS : dget m.store rid with
      | none => simp [setGroup, hT, hS]
      | some info =>
        by_cases h3 : info.group = g
        · rw [setGroup_noop m f g hT hS h3]
        · rw [setGroup_move_tools m f g hT hS h3]
  · intro hf
    rw [addTool_tools, keys_dset_of_not_mem _ hf]
  · rw [registerEnabled, runLoop_ok _ _ _ (fun _ _ _ => rfl)]
    rw [List.map_map]
    rfl

/-- C10 witness: operation 1 is added before operation 2 and then moved
to another enabled group; it still comes first in the activation
iteration (registration order `[1, 2]`), and neither the move nor a
re-add changes the key order of the tool map. -/
theorem claim_C10_witness :
    keys (setGroup (run [Op.add 1 "a" [] [], Op.add 2 "a" [] []]) 1 "b").tools =
      keys (run [Op.add 1 "a" [] [], Op.add 2 "a" [] []]).tools ∧
    keys (addTool (run [Op.add 1 "a" [] [], Op.add 2 "a" [] []]) 1 "b" [] []).tools =
      keys (run [Op.add 1 "a" [] [], Op.add 2 "a" [] []]).tools ∧
    (registerEnabled (run [Op.add 1 "a" [] [], Op.add 2 "a" [] [], Op.move 1 "b",
        Op.turnOn ["a", "b"]]) (fun _ => Except.ok ())).1.map (fun r => r.2.2) =
      [1, 2] := by
  refine ⟨(claim_C10 (run [Op.add 1 "a" [] [], Op.add 2 "a" [] []]) 1 "b" [] []).2.1
      (by decide),
    (claim_C10 (run [Op.add 1 "a" [] [], Op.add 2 "a" [] []]) 1 "b" [] []).1 (by decide),
    ((claim_C10 (run [Op.add 1 "a" [] [], Op.add 2 "a" [] [], Op.move 1 "b",
        Op.turnOn ["a", "b"]]) 1 "b" [] []).2.2.2).trans (by rfl)⟩
